import Mathlib

/-!
# DocRAG — verification of the ingestion-and-retrieval pipeline

Shallow embedding of the core of the DocRAG repository:

* `app/ingestion/chunker.py` — `chunk_text` (whitespace normalization and
  overlapping fixed-size windows);
* `app/vectorstore/qdrant.py` — `store_embeddings` (validated, idempotent
  point upsert) and `search_embeddings` (tenant-filtered scroll, brute-force
  cosine re-ranking, catch-all error handling);
* `app/llm/gemini_client.py` — `generate_answer` (generation with a
  deterministic fallback).

Python floats are idealized as real numbers (`ℝ`); Python machine strings
are Lean `String`/`List Char`.
-/

namespace DocRAG

/-! ## Segmenter (`app/ingestion/chunker.py`) -/

/-- Python's `\s` character class, restricted to ASCII: space, tab, newline,
carriage return, vertical tab, form feed.  (The Unicode whitespace code points
that `re` also matches play no role in any claim.) -/
def isPySpace (c : Char) : Bool :=
  c = ' ' || c = '\t' || c = '\n' || c = '\r' || c = '\x0b' || c = '\x0c'

/-- One pass of `re.sub(r'\s+', ' ', text)`, rendered as a left-to-right state
machine: `inRun` records whether the previous character was whitespace, so
every maximal run of whitespace characters is replaced by a single space. -/
def collapseWSAux (inRun : Bool) : List Char → List Char
  | [] => []
  | c :: rest =>
    if isPySpace c then
      if inRun then collapseWSAux true rest
      else ' ' :: collapseWSAux true rest
    else c :: collapseWSAux false rest

/-- `re.sub(r'\s+', ' ', text)`. -/
def collapseWS (l : List Char) : List Char :=
  collapseWSAux false l

/-- Python `str.strip()`: drop whitespace from both ends. -/
def stripChars (l : List Char) : List Char :=
  ((l.dropWhile isPySpace).reverse.dropWhile isPySpace).reverse

/-- `re.sub(r'\s+', ' ', text).strip()` from `chunk_text`. -/
def normalize (s : String) : List Char :=
  stripChars (collapseWS s.data)

/-- The `while start < text_length` loop of `chunk_text`: emit
`text[start:start+chunk_size]` and advance `start` by `chunk_size - overlap`.
The loop in the source advances `start` by at least one per iteration whenever
`overlap < chunk_size` (and does not terminate otherwise — the spec calls that
a configuration error), so a fuel of `text.length` iterations is always
sufficient; `chunkLoop_sufficient_fuel` below proves the fuel irrelevant. -/
def chunkLoop (text : List Char) (chunk_size overlap : Nat) :
    Nat → Nat → List (List Char)
  | 0, _ => []
  | fuel + 1, start =>
    if start < text.length then
      (text.drop start).take chunk_size ::
        chunkLoop text chunk_size overlap fuel (start + (chunk_size - overlap))
    else []

/-- `chunk_text` from `app/ingestion/chunker.py`: normalize whitespace, then
produce overlapping windows. -/
def chunk_text (text : String) (chunk_size : Nat := 2000) (overlap : Nat := 300) :
    List String :=
  (chunkLoop (normalize text) chunk_size overlap (normalize text).length 0).map
    String.mk

lemma chunkLoop_eq_nil {text : List Char} {cs ov : Nat} (fuel start : Nat)
    (h : text.length ≤ start) : chunkLoop text cs ov fuel start = [] := by
  cases fuel with
  | zero => rfl
  | succ n => simp [chunkLoop, Nat.not_lt.mpr h]

/-- Closed form of the chunking loop: window `i` is
`text[start + i*(chunk_size - overlap) :][:chunk_size]`, present exactly when
its start offset lies inside the text. -/
lemma chunkLoop_getElem? (text : List Char) {cs ov : Nat} (hov : ov < cs) :
    ∀ i fuel start : Nat, text.length ≤ start + fuel →
      (chunkLoop text cs ov fuel start)[i]? =
        if start + i * (cs - ov) < text.length then
          some ((text.drop (start + i * (cs - ov))).take cs)
        else none := by
  intro i
  induction i with
  | zero =>
    intro fuel start hfuel
    cases fuel with
    | zero =>
      have h : ¬ start < text.length := by omega
      simp [chunkLoop, h]
    | succ n =>
      by_cases h : start < text.length
      · simp [chunkLoop, h]
      · simp [chunkLoop, h]
  | succ i ih =>
    intro fuel start hfuel
    cases fuel with
    | zero =>
      have h2 : ¬ start + (i + 1) * (cs - ov) < text.length := by
        have := Nat.le_add_right start ((i + 1) * (cs - ov))
        omega
      simp [chunkLoop, h2]
    | succ n =>
      by_cases h : start < text.length
      · have hrec := ih n (start + (cs - ov)) (by omega)
        simp only [chunkLoop, h, if_true, List.getElem?_cons_succ]
        rw [hrec]
        have harith : start + (cs - ov) + i * (cs - ov) =
            start + (i + 1) * (cs - ov) := by ring
        rw [harith]
      · have h2 : ¬ start + (i + 1) * (cs - ov) < text.length := by
          have := Nat.le_add_right start ((i + 1) * (cs - ov))
          omega
        simp [chunkLoop, h, h2]

/-- The window structure of `chunk_text`: every window `i` is the slice of the
normalized text starting at `i * (chunk_size - overlap)`, truncated at the end
of the text; full-length consecutive windows share exactly `overlap`
characters; every character of the normalized text is covered; and the spec's
regression fixture holds. -/
def ChunkWindowSpec (text : String) (cs ov : Nat) : Prop :=
  (∀ i : Nat, (chunk_text text cs ov)[i]? =
      if i * (cs - ov) < (normalize text).length then
        some (String.mk (((normalize text).drop (i * (cs - ov))).take cs))
      else none)
  ∧ (∀ i : Nat, ∀ a b : String, (chunk_text text cs ov)[i]? = some a →
      (chunk_text text cs ov)[i + 1]? = some b → a.length = cs →
      a.data.drop (cs - ov) = b.data.take ov)
  ∧ (∀ p : Nat, p < (normalize text).length →
      ∃ i : Nat, ∃ w : String, (chunk_text text cs ov)[i]? = some w ∧
        i * (cs - ov) ≤ p ∧ p < i * (cs - ov) + w.length)
  ∧ chunk_text "abcdefghij" 4 1 = ["abcd", "defg", "ghij", "j"]

/-- **C3** (amended): for `overlap < chunk_size`, window `i` of `chunk_text`
starts at offset `i * (chunk_size - overlap)` of the normalized text and is
truncated to the remaining text whenever it extends past the end (not only in
the final window); consecutive fragments overlap by exactly `overlap`
characters whenever the earlier fragment has full length `chunk_size`; every
character of the normalized text appears in at least one fragment; and
segmenting `"abcdefghij"` with `chunk_size=4, overlap=1` yields
`["abcd", "defg", "ghij", "j"]`. -/
theorem chunk_text_window_structure (text : String) (cs ov : Nat)
    (hov : ov < cs) : ChunkWindowSpec text cs ov := by
  have main : ∀ i : Nat, (chunk_text text cs ov)[i]? =
      if i * (cs - ov) < (normalize text).length then
        some (String.mk (((normalize text).drop (i * (cs - ov))).take cs))
      else none := by
    intro i
    have h := chunkLoop_getElem? (normalize text) hov i
      (normalize text).length 0 (by omega)
    simp only [Nat.zero_add] at h
    simp only [chunk_text, List.getElem?_map, h]
    split <;> simp
  refine ⟨main, ?_, ?_, by rfl⟩
  · intro i a b ha hb hlen
    rw [main i] at ha
    rw [main (i + 1)] at hb
    by_cases h1 : i * (cs - ov) < (normalize text).length
    · by_cases h2 : (i + 1) * (cs - ov) < (normalize text).length
      · rw [if_pos h1] at ha
        rw [if_pos h2] at hb
        obtain rfl := Option.some.inj ha
        obtain rfl := Option.some.inj hb
        have hdata : (String.mk (((normalize text).drop (i * (cs - ov))).take cs)).data
            = ((normalize text).drop (i * (cs - ov))).take cs := rfl
        simp only [hdata]
        have hstep : (i + 1) * (cs - ov) = i * (cs - ov) + (cs - ov) := by ring
        rw [List.drop_take, List.drop_drop, List.take_take]
        have hsub : cs - (cs - ov) = ov := by omega
        have hmin : ov ⊓ cs = ov := by omega
        rw [hsub, hmin, hstep, Nat.add_comm (i * (cs - ov)) (cs - ov)]
      · rw [if_neg h2] at hb
        exact absurd hb (by simp)
    · rw [if_neg h1] at ha
      exact absurd ha (by simp)
  · intro p hp
    have hstep : 0 < cs - ov := by omega
    set s := (p / (cs - ov)) * (cs - ov) with hs
    have hcond : s < (normalize text).length := by
      have := Nat.div_mul_le_self p (cs - ov)
      omega
    refine ⟨p / (cs - ov), String.mk (((normalize text).drop s).take cs),
      by rw [main]; rw [if_pos hcond], ?_, ?_⟩
    · exact Nat.div_mul_le_self p (cs - ov)
    · have hlenw : (String.mk (((normalize text).drop s).take cs)).length
          = cs ⊓ ((normalize text).length - s) := by
        show (((normalize text).drop s).take cs).length = _
        rw [List.length_take, List.length_drop]
      rw [hlenw]
      have hmod : (cs - ov) * (p / (cs - ov)) + p % (cs - ov) = p :=
        Nat.div_add_mod p (cs - ov)
      have hmlt : p % (cs - ov) < cs - ov := Nat.mod_lt _ hstep
      have hcomm : s = (cs - ov) * (p / (cs - ov)) := by
        rw [hs, Nat.mul_comm]
      omega

/-- **C3** counterexample to the claim as stated: segmenting `"abcde"` with
`chunk_size=4, overlap=3` produces `["abcd", "bcde", "cde", "de", "e"]`, in
which window 2 (`"cde"`) is truncated (length 3 ≠ 4) although it is not the
final window (the list has 5 windows). -/
theorem chunk_text_truncated_nonfinal_counterexample :
    (3 : Nat) < 4 ∧
    chunk_text "abcde" 4 3 = ["abcd", "bcde", "cde", "de", "e"] ∧
    (chunk_text "abcde" 4 3)[2]? = some "cde" ∧
    "cde".length ≠ 4 ∧
    (chunk_text "abcde" 4 3).length = 5 :=
  ⟨by decide, by rfl, by rfl, by decide, by rfl⟩

/-- Witness for `chunk_text_window_structure` at the spec's regression
fixture. -/
theorem chunk_text_window_structure_witness :
    (1 : Nat) < 4 ∧ ChunkWindowSpec "abcdefghij" 4 1 :=
  ⟨by decide, chunk_text_window_structure "abcdefghij" 4 1 (by decide)⟩

/-- **C4** (amended): a text whose normalized form is nonempty and no longer
than `chunk_size - overlap` yields exactly one fragment, equal to the whole
normalized text.  (Nonemptiness and the bound by `chunk_size - overlap` rather
than `chunk_size` are both forced by the loop in the source: see the
counterexample.) -/
theorem chunk_text_single_fragment (text : String) (cs ov : Nat)
    (hov : ov < cs) (h0 : 0 < (normalize text).length)
    (hle : (normalize text).length ≤ cs - ov) :
    chunk_text text cs ov = [String.mk (normalize text)] := by
  obtain ⟨n, hn⟩ : ∃ n, (normalize text).length = n + 1 :=
    ⟨(normalize text).length - 1, by omega⟩
  unfold chunk_text
  rw [hn]
  have hlt : 0 < (normalize text).length := h0
  simp only [chunkLoop, hlt, if_true]
  rw [chunkLoop_eq_nil n (0 + (cs - ov)) (by omega)]
  rw [List.drop_zero, List.take_of_length_le (by omega)]
  rfl

/-- **C4** counterexample to the claim as stated: `"abc"` normalizes to a
3-character text, shorter than `chunk_size = 4`, yet with `overlap = 3` the
segmenter yields three fragments `["abc", "bc", "c"]`, not one. -/
theorem chunk_text_short_text_counterexample :
    (normalize "abc").length = 3 ∧ (3 : Nat) < 4 ∧
    chunk_text "abc" 4 3 = ["abc", "bc", "c"] ∧
    (chunk_text "abc" 4 3).length ≠ 1 :=
  ⟨by rfl, by decide, by rfl, by decide⟩

/-- Witness for `chunk_text_single_fragment`: a 5-character text with
`chunk_size=10, overlap=2` yields the single fragment `"hello"`. -/
theorem chunk_text_single_fragment_witness :
    (2 : Nat) < 10 ∧ 0 < (normalize "hello").length ∧
    (normalize "hello").length ≤ 10 - 2 ∧
    chunk_text "hello" 10 2 = [String.mk (normalize "hello")] :=
  ⟨by decide, by decide, by decide,
    chunk_text_single_fragment "hello" 10 2 (by decide) (by decide) (by decide)⟩

/-! ## Tenant-scoped vector store (`app/vectorstore/qdrant.py`)

Python floats are idealized as `ℝ`.  The Qdrant client itself is an external
collaborator; its point-upsert and attribute-filtered point-read are modelled
from the spec's §6 collaborator contract. -/

/-- Point payload persisted with every vector
(`app/vectorstore/qdrant.py`, `store_embeddings`). -/
structure Payload where
  tenant_id : String
  document_id : String
  chunk_index : Nat
  text : String
deriving DecidableEq

/-- A stored point: identifier, vector, payload (`PointStruct`). -/
structure Point where
  id : String
  vector : List ℝ
  payload : Payload

/-- One element of the `embeddings` list passed to `store_embeddings`
(built by `app/ingestion/pipeline.py::process_text`): a dict with keys
`chunk_index`, `text`, `embedding`.  The dynamic `isinstance`/key checks of
the source are statically guaranteed by this type. -/
structure EmbeddingItem where
  chunk_index : Nat
  text : String
  embedding : List ℝ

/-- `VECTOR_SIZE = 384` (all-MiniLM-L6-v2). -/
def VECTOR_SIZE : Nat := 384

/-- The stable point identifier of `store_embeddings`:
`hashlib.md5(f"{document_id}_{item['chunk_index']}".encode()).hexdigest()`.
The md5 hex digest is a fixed deterministic function of its input string; we
model the digest by the input string itself.  No claim relies on digest
collisions, only on the digest being a function of
`(document_id, chunk_index)`. -/
def pointId (document_id : String) (chunk_index : Nat) : String :=
  document_id ++ "_" ++ toString chunk_index

/-- The `PointStruct` built by `store_embeddings` for one valid item. -/
def mkPoint (tenant_id document_id : String) (item : EmbeddingItem) : Point :=
  ⟨pointId document_id item.chunk_index, item.embedding,
    ⟨tenant_id, document_id, item.chunk_index, item.text⟩⟩

/-- The `points` list built by the loop in `store_embeddings`: items whose
vector length differs from `VECTOR_SIZE` are skipped (logged and ignored). -/
def validPoints (tenant_id document_id : String)
    (embeddings : List EmbeddingItem) : List Point :=
  (embeddings.filter (fun it => it.embedding.length == VECTOR_SIZE)).map
    (mkPoint tenant_id document_id)

/-- Modelled from the spec: the external vector database's point-upsert —
a point whose id already exists is overwritten in place, otherwise it is
appended. -/
def upsertPoint (pts : List Point) (p : Point) : List Point :=
  if pts.any (fun q => q.id == p.id) then
    pts.map (fun q => if q.id == p.id then p else q)
  else pts ++ [p]

/-- Upsert of a whole batch, point by point. -/
def upsertPoints (pts : List Point) (batch : List Point) : List Point :=
  batch.foldl upsertPoint pts

/-- `store_embeddings` from `app/vectorstore/qdrant.py`: fail on an empty
batch (`"No embeddings provided"`), skip items with wrong vector
dimensionality, fail when no valid point remains
(`"No valid points to insert"`), otherwise upsert all valid points.  The
`except` clause of the source re-raises, so errors propagate to the caller. -/
def store_embeddings (pts : List Point) (tenant_id document_id : String)
    (embeddings : List EmbeddingItem) : Except String (List Point) :=
  if embeddings.isEmpty then .error "No embeddings provided"
  else if (validPoints tenant_id document_id embeddings).isEmpty then
    .error "No valid points to insert"
  else .ok (upsertPoints pts (validPoints tenant_id document_id embeddings))

lemma mem_upsertPoint {pts : List Point} {p q : Point}
    (h : q ∈ upsertPoint pts p) : q = p ∨ q ∈ pts := by
  unfold upsertPoint at h
  split at h
  · obtain ⟨r, hr, hrq⟩ := List.mem_map.mp h
    by_cases hid : r.id == p.id
    · left
      rw [if_pos hid] at hrq
      exact hrq.symm
    · right
      rw [if_neg hid] at hrq
      exact hrq ▸ hr
  · rcases List.mem_append.mp h with h' | h'
    · exact Or.inr h'
    · exact Or.inl (List.mem_singleton.mp h')

lemma mem_upsertPoints {pts batch : List Point} {q : Point}
    (h : q ∈ upsertPoints pts batch) : q ∈ batch ∨ q ∈ pts := by
  induction batch generalizing pts with
  | nil => exact Or.inr h
  | cons p rest ih =>
    rcases @ih (upsertPoint pts p) h with h' | h'
    · exact Or.inl (List.mem_cons_of_mem p h')
    · rcases mem_upsertPoint h' with h'' | h''
      · exact Or.inl (h'' ▸ List.mem_cons_self p rest)
      · exact Or.inr h''

lemma id_mem_upsertPoint (pts : List Point) (p : Point) :
    ∃ q ∈ upsertPoint pts p, q.id = p.id := by
  unfold upsertPoint
  split
  case isTrue h =>
    obtain ⟨r, hr, hrid⟩ := List.any_eq_true.mp h
    refine ⟨p, List.mem_map.mpr ⟨r, hr, ?_⟩, rfl⟩
    rw [if_pos hrid]
  case isFalse h =>
    exact ⟨p, List.mem_append.mpr (Or.inr (List.mem_singleton.mpr rfl)), rfl⟩

/-- `upsertPoint` never changes the list of stored point ids when the id is
already present, because an overwritten point keeps its id. -/
lemma ids_upsertPoint_of_mem {pts : List Point} {p : Point}
    (h : ∃ q ∈ pts, q.id = p.id) :
    (upsertPoint pts p).map Point.id = pts.map Point.id := by
  obtain ⟨q, hq, hqid⟩ := h
  have hc : (pts.any fun r => r.id == p.id) = true :=
    List.any_eq_true.mpr ⟨q, hq, beq_iff_eq.mpr hqid⟩
  unfold upsertPoint
  rw [if_pos hc]
  rw [List.map_map]
  apply List.map_congr_left
  intro r _
  by_cases hid : r.id == p.id
  · simp only [Function.comp_apply, if_pos hid]
    exact (beq_iff_eq.mp hid).symm
  · simp only [Function.comp_apply, if_neg hid]

lemma ids_subset_upsertPoint (pts : List Point) (p : Point) {i : String}
    (h : ∃ q ∈ pts, q.id = i) : ∃ q ∈ upsertPoint pts p, q.id = i := by
  obtain ⟨q, hq, hqid⟩ := h
  unfold upsertPoint
  split
  · by_cases hid : q.id == p.id
    · refine ⟨p, List.mem_map.mpr ⟨q, hq, by rw [if_pos hid]⟩, ?_⟩
      rw [← hqid]
      exact (beq_iff_eq.mp hid).symm
    · exact ⟨q, List.mem_map.mpr ⟨q, hq, by rw [if_neg hid]⟩, hqid⟩
  · exact ⟨q, List.mem_append.mpr (Or.inl hq), hqid⟩

lemma ids_subset_upsertPoints (pts batch : List Point) {i : String}
    (h : ∃ q ∈ pts, q.id = i) : ∃ q ∈ upsertPoints pts batch, q.id = i := by
  induction batch generalizing pts with
  | nil => exact h
  | cons p rest ih => exact ih (upsertPoint pts p) (ids_subset_upsertPoint pts p h)

/-- After upserting a batch, every point of the batch has its id present. -/
lemma batch_ids_mem_upsertPoints (pts batch : List Point) :
    ∀ p ∈ batch, ∃ q ∈ upsertPoints pts batch, q.id = p.id := by
  induction batch generalizing pts with
  | nil => intro p hp; cases hp
  | cons b rest ih =>
    intro p hp
    rcases List.mem_cons.mp hp with rfl | hp'
    · exact ids_subset_upsertPoints (upsertPoint pts p) rest
        (id_mem_upsertPoint pts p)
    · exact ih (upsertPoint pts b) p hp'

/-- Upserting a batch all of whose ids are already stored preserves the list
of stored ids (hence the store size). -/
lemma ids_upsertPoints_of_all_mem {pts batch : List Point}
    (h : ∀ p ∈ batch, ∃ q ∈ pts, q.id = p.id) :
    (upsertPoints pts batch).map Point.id = pts.map Point.id := by
  induction batch generalizing pts with
  | nil => rfl
  | cons b rest ih =>
    have hb := h b (List.mem_cons_self b rest)
    have hids := ids_upsertPoint_of_mem hb
    have hrest : ∀ p ∈ rest, ∃ q ∈ upsertPoint pts b, q.id = p.id := by
      intro p hp
      exact ids_subset_upsertPoint pts b (h p (List.mem_cons_of_mem b hp))
    calc (upsertPoints (upsertPoint pts b) rest).map Point.id
        = (upsertPoint pts b).map Point.id := ih hrest
      _ = pts.map Point.id := hids

lemma self_mem_upsertPoint (pts : List Point) (p : Point) :
    p ∈ upsertPoint pts p := by
  unfold upsertPoint
  split
  case isTrue h =>
    obtain ⟨r, hr, hrid⟩ := List.any_eq_true.mp h
    exact List.mem_map.mpr ⟨r, hr, by rw [if_pos hrid]⟩
  case isFalse h =>
    exact List.mem_append.mpr (Or.inr (List.mem_singleton.mpr rfl))

lemma mem_upsertPoint_of_ne {pts : List Point} {p : Point} (q : Point)
    (hp : p ∈ pts) (hne : p.id ≠ q.id) : p ∈ upsertPoint pts q := by
  unfold upsertPoint
  split
  · exact List.mem_map.mpr ⟨p, hp, by rw [if_neg (by simpa using hne)]⟩
  · exact List.mem_append.mpr (Or.inl hp)

lemma mem_upsertPoints_of_ne {pts : List Point} {p : Point} (batch : List Point)
    (hp : p ∈ pts) (hne : ∀ q ∈ batch, p.id ≠ q.id) :
    p ∈ upsertPoints pts batch := by
  induction batch generalizing pts with
  | nil => exact hp
  | cons b rest ih =>
    exact ih (mem_upsertPoint_of_ne b hp (hne b (List.mem_cons_self b rest)))
      (fun q hq => hne q (List.mem_cons_of_mem b hq))

/-- A batch whose ids are distinct is entirely present after its upsert. -/
lemma batch_mem_upsertPoints {batch : List Point} (pts : List Point)
    (hnd : (batch.map Point.id).Nodup) :
    ∀ p ∈ batch, p ∈ upsertPoints pts batch := by
  induction batch generalizing pts with
  | nil => intro p hp; cases hp
  | cons b rest ih =>
    intro p hp
    rw [List.map_cons, List.nodup_cons] at hnd
    rcases List.mem_cons.mp hp with rfl | hp'
    · exact mem_upsertPoints_of_ne rest (self_mem_upsertPoint pts p)
        (fun q hq heq => hnd.1 (List.mem_map.mpr ⟨q, hq, heq.symm⟩))
    · exact ih (upsertPoint pts b) hnd.2 p hp'

/-- **C5**: `store_embeddings` fails exactly when no fragment of the batch has
a `VECTOR_SIZE`-dimensional vector (an empty batch included); on success,
every stored point either was already stored or is the point of a
correct-dimensionality fragment of the batch (so wrong-dimensionality
fragments are skipped, never persisted); every correct-dimensionality
fragment's point id is present after the call; and — for batches whose
derived point ids are distinct, as produced by the ingestion pipeline's
enumeration — every correct-dimensionality fragment's full point is
persisted. -/
theorem store_embeddings_partial_failure (pts : List Point)
    (tenant_id document_id : String) (embeddings : List EmbeddingItem) :
    ((∃ e, store_embeddings pts tenant_id document_id embeddings = .error e) ↔
      validPoints tenant_id document_id embeddings = [])
    ∧ ∀ newPts,
        store_embeddings pts tenant_id document_id embeddings = .ok newPts →
        (∀ p ∈ newPts, p ∈ pts ∨ ∃ item ∈ embeddings,
            item.embedding.length = VECTOR_SIZE ∧
            p = mkPoint tenant_id document_id item)
        ∧ (∀ item ∈ embeddings, item.embedding.length = VECTOR_SIZE →
            ∃ q ∈ newPts, q.id = pointId document_id item.chunk_index)
        ∧ ((embeddings.map fun it => pointId document_id it.chunk_index).Nodup →
            ∀ item ∈ embeddings, item.embedding.length = VECTOR_SIZE →
              mkPoint tenant_id document_id item ∈ newPts) := by
  constructor
  · constructor
    · rintro ⟨e, he⟩
      unfold store_embeddings at he
      split at he
      case isTrue hempty =>
        simp only [validPoints, List.isEmpty_iff.mp hempty]
        rfl
      case isFalse hempty =>
        split at he
        case isTrue hval => exact List.isEmpty_iff.mp hval
        case isFalse hval => cases he
    · intro hval
      unfold store_embeddings
      split
      · exact ⟨"No embeddings provided", rfl⟩
      · rw [if_pos (List.isEmpty_iff.mpr hval)]
        exact ⟨"No valid points to insert", rfl⟩
  · intro newPts h
    unfold store_embeddings at h
    split at h
    · cases h
    · split at h
      · cases h
      · have hnew : newPts = upsertPoints pts
            (validPoints tenant_id document_id embeddings) :=
          (Except.ok.inj h).symm
        subst hnew
        refine ⟨?_, ?_, ?_⟩
        · intro p hp
          rcases mem_upsertPoints hp with hb | hb
          · right
            obtain ⟨item, hitem, hmk⟩ := List.mem_map.mp hb
            obtain ⟨hmem, hlen⟩ := List.mem_filter.mp hitem
            exact ⟨item, hmem, by simpa using hlen, hmk.symm⟩
          · exact Or.inl hb
        · intro item hitem hlen
          have hb : mkPoint tenant_id document_id item ∈
              validPoints tenant_id document_id embeddings :=
            List.mem_map.mpr ⟨item,
              List.mem_filter.mpr ⟨hitem, by simpa using hlen⟩, rfl⟩
          exact batch_ids_mem_upsertPoints pts _ _ hb
        · intro hnd item hitem hlen
          have hb : mkPoint tenant_id document_id item ∈
              validPoints tenant_id document_id embeddings :=
            List.mem_map.mpr ⟨item,
              List.mem_filter.mpr ⟨hitem, by simpa using hlen⟩, rfl⟩
          have hnd' : ((validPoints tenant_id document_id embeddings).map
              Point.id).Nodup := by
            have hsub : (embeddings.filter
                (fun it => it.embedding.length == VECTOR_SIZE)).map
                  (fun it => pointId document_id it.chunk_index) |>.Sublist
                (embeddings.map fun it => pointId document_id it.chunk_index) :=
              (List.filter_sublist embeddings).map _
            have : ((validPoints tenant_id document_id embeddings).map Point.id)
                = (embeddings.filter
                    (fun it => it.embedding.length == VECTOR_SIZE)).map
                  (fun it => pointId document_id it.chunk_index) := by
              unfold validPoints
              rw [List.map_map]
              rfl
            rw [this]
            exact hnd.sublist hsub
          exact batch_mem_upsertPoints pts hnd' _ hb

/-- **C6**: the point identifier is a deterministic function of
`(document_id, chunk_index)` (the id of every built point is
`pointId document_id chunk_index`), and re-upserting the exact same batch hits
the same ids, so the second call succeeds and leaves the store size
unchanged. -/
theorem store_embeddings_idempotent (pts newPts : List Point)
    (tenant_id document_id : String) (embeddings : List EmbeddingItem)
    (h : store_embeddings pts tenant_id document_id embeddings = .ok newPts) :
    (∀ item : EmbeddingItem, (mkPoint tenant_id document_id item).id =
      pointId document_id item.chunk_index)
    ∧ ∃ newPts2,
        store_embeddings newPts tenant_id document_id embeddings = .ok newPts2
        ∧ newPts2.length = newPts.length := by
  refine ⟨fun _ => rfl, ?_⟩
  unfold store_embeddings at h ⊢
  split at h
  · cases h
  case isFalse hempty =>
    split at h
    · cases h
    case isFalse hval =>
      have hnew : newPts = upsertPoints pts
          (validPoints tenant_id document_id embeddings) :=
        (Except.ok.inj h).symm
      rw [if_neg (by simpa using hempty), if_neg (by simpa using hval)]
      refine ⟨_, rfl, ?_⟩
      have hids : ∀ p ∈ validPoints tenant_id document_id embeddings,
          ∃ q ∈ newPts, q.id = p.id := by
        intro p hp
        rw [hnew]
        exact batch_ids_mem_upsertPoints pts _ p hp
      have := ids_upsertPoints_of_all_mem hids
      calc (upsertPoints newPts (validPoints tenant_id document_id embeddings)).length
          = ((upsertPoints newPts
              (validPoints tenant_id document_id embeddings)).map Point.id).length :=
            (List.length_map _ _).symm
        _ = (newPts.map Point.id).length := by rw [this]
        _ = newPts.length := List.length_map _ _

set_option maxRecDepth 4096 in
/-- Witness for `store_embeddings_idempotent`: storing one valid 384-dim
fragment into an empty store, then storing the identical batch again, leaves
one point. -/
theorem store_embeddings_idempotent_witness :
    (∀ item : EmbeddingItem, (mkPoint "A" "d" item).id =
      pointId "d" item.chunk_index)
    ∧ ∃ newPts2, store_embeddings
        [mkPoint "A" "d" ⟨0, "x", List.replicate 384 (0 : ℝ)⟩] "A" "d"
        [⟨0, "x", List.replicate 384 (0 : ℝ)⟩] = .ok newPts2
        ∧ newPts2.length =
          [mkPoint "A" "d" ⟨0, "x", List.replicate 384 (0 : ℝ)⟩].length :=
  store_embeddings_idempotent []
    [mkPoint "A" "d" ⟨0, "x", List.replicate 384 (0 : ℝ)⟩] "A" "d"
    [⟨0, "x", List.replicate 384 (0 : ℝ)⟩] (by rfl)

/-! ## Retrieval (`search_embeddings` in `app/vectorstore/qdrant.py`) -/

/-- `np.dot` on two equal-length 1-d arrays.  (On unequal lengths `np.dot`
raises; `search_body` models that exception explicitly before any similarity
is computed, so the zip truncation here is never observed.) -/
def dotList (v1 v2 : List ℝ) : ℝ :=
  (List.zipWith (· * ·) v1 v2).sum

/-- `np.linalg.norm`: the Euclidean norm. -/
noncomputable def normL2 (v : List ℝ) : ℝ :=
  Real.sqrt (dotList v v)

/-- The inner `cosine_similarity` helper of `search_embeddings`:
`np.dot(vec1, vec2) / (np.linalg.norm(vec1) * np.linalg.norm(vec2))`.
Python float arithmetic is idealized as real arithmetic (in Mathlib a
division by zero yields `0` where numpy would produce `nan`; no claim
involves zero-norm vectors). -/
noncomputable def cosine_similarity (vec1 vec2 : List ℝ) : ℝ :=
  dotList vec1 vec2 / (normL2 vec1 * normL2 vec2)

/-- An entry of the `scored_results` list: `(similarity, point)`. -/
structure ScoredPoint where
  score : ℝ
  point : Point

/-- The comparison realized by
`scored_results.sort(key=lambda x: x[0], reverse=True)`: `a` may precede `b`
iff `a`'s similarity is at least `b`'s.  Python's sort is stable, and a stable
sort for a total preorder is extensionally unique, so Mathlib's (stable)
`List.insertionSort` with this relation computes exactly Python's result;
`filter_score_insertionSort` below proves the stability used by the
tie-breaking claim. -/
def simGE (a b : ScoredPoint) : Prop :=
  b.score ≤ a.score

noncomputable instance : DecidableRel simGE :=
  fun a b => inferInstanceAs (Decidable (b.score ≤ a.score))

instance : IsTotal ScoredPoint simGE :=
  ⟨fun a b => le_total b.score a.score⟩

instance : IsTrans ScoredPoint simGE :=
  ⟨fun _ _ _ hab hbc => le_trans hbc hab⟩

/-- The ad-hoc `SearchResult` object returned by `search_embeddings`:
`(score, payload)`. -/
structure SearchResult where
  score : ℝ
  payload : Payload

/-- Modelled from the spec: the external vector database's attribute-filtered
point-read — `client.scroll` with the mandatory `tenant_id` `must`-filter,
returning at most `lim` of the tenant's points with payloads and vectors.  An
unreachable store is the `.error` case. -/
def scroll (store : Except String (List Point)) (tenant_id : String)
    (lim : Nat) : Except String (List Point) :=
  store.map fun pts =>
    (pts.filter fun p => p.payload.tenant_id == tenant_id).take lim

/-- The `try:` block of `search_embeddings`: reject a falsy (empty) query
vector, replace a non-positive limit by 5, scroll the tenant's points
(pool of 100), keep points with a non-empty vector, fail if any kept vector's
dimensionality differs from the query's (`np.dot` raises), score every
candidate by cosine similarity, sort descending (stably) and return the
first `limit` as `(score, payload)` results. -/
noncomputable def search_body (store : Except String (List Point))
    (tenant_id : String) (query_vector : List ℝ) (limit : Int) :
    Except String (List SearchResult) :=
  if query_vector.isEmpty then .error "Invalid query vector"
  else
    let lim : Int := if limit ≤ 0 then 5 else limit
    match scroll store tenant_id 100 with
    | .error e => .error e
    | .ok pts =>
      if (pts.filter fun p => !p.vector.isEmpty).any
          (fun p => p.vector.length != query_vector.length) then
        .error "shapes not aligned"
      else
        .ok (((List.insertionSort simGE
            ((pts.filter fun p => !p.vector.isEmpty).map fun p =>
              ScoredPoint.mk (cosine_similarity query_vector p.vector) p)).take
                lim.toNat).map
          fun sp => SearchResult.mk sp.score sp.point.payload)

/-- `search_embeddings` from `app/vectorstore/qdrant.py`: the whole body is
wrapped in `try/except`, and the handler returns `[]`, so every internal
failure — validation error, unreachable store, numpy shape error — yields the
empty result list. -/
noncomputable def search_embeddings (store : Except String (List Point))
    (tenant_id : String) (query_vector : List ℝ) (limit : Int := 5) :
    List SearchResult :=
  match search_body store tenant_id query_vector limit with
  | .ok results => results
  | .error _ => []

/-- The candidate pool of one retrieval: the tenant's points (first 100 of
the scroll) that carry a non-empty vector, in retrieval order. -/
def candidatePool (pts : List Point) (tenant_id : String) : List Point :=
  ((pts.filter fun p => p.payload.tenant_id == tenant_id).take 100).filter
    fun p => !p.vector.isEmpty

lemma filter_score_orderedInsert (s : ℝ) (a : ScoredPoint)
    (l : List ScoredPoint) :
    (List.orderedInsert simGE a l).filter (fun x => decide (x.score = s)) =
      if a.score = s then
        a :: l.filter (fun x => decide (x.score = s))
      else l.filter (fun x => decide (x.score = s)) := by
  induction l with
  | nil => by_cases h : a.score = s <;> simp [List.orderedInsert, h]
  | cons b l ih =>
    by_cases hab : simGE a b
    · rw [List.orderedInsert, if_pos hab]
      by_cases h : a.score = s <;> simp [List.filter_cons, h]
    · rw [List.orderedInsert, if_neg hab]
      have hlt : a.score < b.score := lt_of_not_le hab
      by_cases h : a.score = s
      · have hb : ¬ b.score = s := by
          intro hbs
          rw [h] at hlt
          rw [hbs] at hlt
          exact lt_irrefl s hlt
        simp [List.filter_cons, hb, ih, h]
      · by_cases hb : b.score = s <;> simp [List.filter_cons, hb, ih, h]

/-- Stability of the modelled sort: for every similarity value, the
candidates attaining it appear in the sorted list in their original
(retrieval) order. -/
lemma filter_score_insertionSort (s : ℝ) (l : List ScoredPoint) :
    (List.insertionSort simGE l).filter (fun x => decide (x.score = s)) =
      l.filter (fun x => decide (x.score = s)) := by
  induction l with
  | nil => rfl
  | cons a l ih =>
    rw [List.insertionSort, filter_score_orderedInsert, ih]
    by_cases h : a.score = s <;> simp [List.filter_cons, h]

lemma sorted_head_max {x : ScoredPoint} {xs : List ScoredPoint}
    (h : List.Sorted simGE (x :: xs)) : ∀ y ∈ x :: xs, y.score ≤ x.score := by
  intro y hy
  rcases List.mem_cons.mp hy with rfl | hy'
  · exact le_refl _
  · exact List.rel_of_sorted_cons h y hy'

/-- On an empty query vector the body raises before any store access: the
result is the validation error whatever the store holds — even an
unreachable one. -/
lemma search_body_empty_qv (store : Except String (List Point))
    (tenant_id : String) (limit : Int) :
    search_body store tenant_id [] limit = .error "Invalid query vector" :=
  rfl

/-- An unreachable store propagates its error through the body (the
validation of the query vector happened first). -/
lemma search_body_error_store {e tenant_id : String} {qv : List ℝ}
    {limit : Int} (hq : qv ≠ []) :
    search_body (.error e) tenant_id qv limit = .error e := by
  unfold search_body
  rw [if_neg (fun hh => hq (List.isEmpty_iff.mp hh))]
  rfl

/-- Evaluation of the `try:` block on a reachable store: after scrolling, the
body either hits the numpy shape error or scores, sorts and truncates the
candidate pool. -/
lemma search_body_ok_store {pts : List Point} {tenant_id : String}
    {qv : List ℝ} {limit : Int} (hq : qv ≠ []) :
    search_body (.ok pts) tenant_id qv limit =
      if (candidatePool pts tenant_id).any
          (fun p => p.vector.length != qv.length) then
        .error "shapes not aligned"
      else
        .ok (((List.insertionSort simGE
            ((candidatePool pts tenant_id).map fun p =>
              ScoredPoint.mk (cosine_similarity qv p.vector) p)).take
                (if limit ≤ 0 then (5 : Int) else limit).toNat).map
          fun sp => SearchResult.mk sp.score sp.point.payload) := by
  unfold search_body
  rw [if_neg (fun hh => hq (List.isEmpty_iff.mp hh))]
  rfl

/-- Evaluation of the `try:` block on a reachable store when every pooled
vector has the query's dimensionality: the branch that scores, sorts and
truncates is taken. -/
lemma search_body_ok (limit : Int) {pts : List Point} {tenant_id : String}
    {qv : List ℝ} (hq : qv ≠ [])
    (hdim : ∀ p ∈ candidatePool pts tenant_id,
      p.vector.length = qv.length) :
    search_body (.ok pts) tenant_id qv limit =
      .ok (((List.insertionSort simGE
          ((candidatePool pts tenant_id).map fun p =>
            ScoredPoint.mk (cosine_similarity qv p.vector) p)).take
              (if limit ≤ 0 then (5 : Int) else limit).toNat).map
        fun sp => SearchResult.mk sp.score sp.point.payload) := by
  rw [search_body_ok_store hq]
  have hany : (candidatePool pts tenant_id).any
      (fun p => p.vector.length != qv.length) = false := by
    rw [List.any_eq_false]
    intro p hp
    simp only [bne_iff_ne, ne_eq, Decidable.not_not]
    exact hdim p hp
  rw [hany]
  rfl

/-- **C1**: every result of `search_embeddings` carries the caller's
`tenant_id` — for any store (reachable or not), query vector and limit.  The
only read is `client.scroll` under a mandatory `tenant_id` filter, and
scoring, sorting and truncation never change payloads, so no fragment of
another tenant can be returned regardless of vector similarity. -/
theorem search_embeddings_tenant_isolation
    (store : Except String (List Point)) (tenant_id : String)
    (query_vector : List ℝ) (limit : Int) (r : SearchResult)
    (hr : r ∈ search_embeddings store tenant_id query_vector limit) :
    r.payload.tenant_id = tenant_id := by
  have hbase : ∀ results : List SearchResult,
      search_body store tenant_id query_vector limit = .ok results →
      r ∈ results → r.payload.tenant_id = tenant_id := by
    intro results hbody hrres
    by_cases hq : query_vector = []
    · rw [hq, search_body_empty_qv] at hbody
      cases hbody
    · cases store with
      | error e =>
        rw [search_body_error_store hq] at hbody
        cases hbody
      | ok pts =>
        rw [search_body_ok_store hq] at hbody
        by_cases hany : (candidatePool pts tenant_id).any
            (fun p => p.vector.length != query_vector.length) = true
        · rw [if_pos hany] at hbody
          cases hbody
        · rw [if_neg hany] at hbody
          obtain rfl := Except.ok.inj hbody
          obtain ⟨sp, hsp, rfl⟩ := List.mem_map.mp hrres
          have hsp' : sp ∈ List.insertionSort simGE
              ((candidatePool pts tenant_id).map fun p =>
                ScoredPoint.mk (cosine_similarity query_vector p.vector) p) :=
            List.take_subset _ _ hsp
          have hsp'' := (List.perm_insertionSort simGE _).mem_iff.mp hsp'
          obtain ⟨p, hp, rfl⟩ := List.mem_map.mp hsp''
          have hp' : p ∈ (pts.filter fun p =>
              p.payload.tenant_id == tenant_id).take 100 :=
            (List.mem_filter.mp hp).1
          have hp'' : p ∈ pts.filter fun p =>
              p.payload.tenant_id == tenant_id :=
            List.take_subset _ _ hp'
          exact beq_iff_eq.mp (List.mem_filter.mp hp'').2
  unfold search_embeddings at hr
  cases hbody : search_body store tenant_id query_vector limit with
  | error e => rw [hbody] at hr; cases hr
  | ok results =>
    rw [hbody] at hr
    exact hbase results hbody hr

/-- Witness for `search_embeddings_tenant_isolation`: a tenant-"A" query over
a store holding one tenant-"A" point returns that point, whose payload names
tenant "A". -/
theorem search_embeddings_tenant_isolation_witness :
    (SearchResult.mk (cosine_similarity [(1 : ℝ)] [(1 : ℝ)]) ⟨"A", "d", 0, "t"⟩) ∈
        search_embeddings (.ok [⟨"p1", [(1 : ℝ)], ⟨"A", "d", 0, "t"⟩⟩]) "A"
          [(1 : ℝ)] 5
    ∧ (SearchResult.mk (cosine_similarity [(1 : ℝ)] [(1 : ℝ)])
        ⟨"A", "d", 0, "t"⟩).payload.tenant_id = "A" := by
  have he : search_embeddings (.ok [⟨"p1", [(1 : ℝ)], ⟨"A", "d", 0, "t"⟩⟩]) "A"
      [(1 : ℝ)] 5 =
      [SearchResult.mk (cosine_similarity [(1 : ℝ)] [(1 : ℝ)])
        ⟨"A", "d", 0, "t"⟩] := rfl
  have hmem : (SearchResult.mk (cosine_similarity [(1 : ℝ)] [(1 : ℝ)])
      ⟨"A", "d", 0, "t"⟩) ∈
      search_embeddings (.ok [⟨"p1", [(1 : ℝ)], ⟨"A", "d", 0, "t"⟩⟩]) "A"
        [(1 : ℝ)] 5 := by
    rw [he]
    exact List.mem_singleton.mpr rfl
  exact ⟨hmem, search_embeddings_tenant_isolation _ _ _ _ _ hmem⟩

/-- The ranking contract of one retrieval over a reachable store: the result
list is an initial segment (of length `limit`) of a list `full` that is a
permutation of the scored candidate pool, sorted by weakly descending
similarity, with candidates of equal similarity kept in retrieval order
(stability); the result length is at most `limit`; and a non-empty result's
top score is attained by some candidate and bounds every candidate's
similarity. -/
def RankingSpec (pts : List Point) (tenant_id : String)
    (query_vector : List ℝ) (limit : Int) : Prop :=
  ∃ full : List ScoredPoint,
    search_embeddings (.ok pts) tenant_id query_vector limit =
      (full.take limit.toNat).map
        (fun sp => SearchResult.mk sp.score sp.point.payload)
    ∧ full.Perm ((candidatePool pts tenant_id).map fun p =>
        ScoredPoint.mk (cosine_similarity query_vector p.vector) p)
    ∧ List.Sorted simGE full
    ∧ (∀ s : ℝ, full.filter (fun x => decide (x.score = s)) =
        ((candidatePool pts tenant_id).map fun p =>
          ScoredPoint.mk (cosine_similarity query_vector p.vector) p).filter
            (fun x => decide (x.score = s)))
    ∧ (search_embeddings (.ok pts) tenant_id query_vector limit).length ≤
        limit.toNat
    ∧ ∀ top rest,
        search_embeddings (.ok pts) tenant_id query_vector limit =
          top :: rest →
        (∃ p ∈ candidatePool pts tenant_id,
          top.score = cosine_similarity query_vector p.vector)
        ∧ ∀ p ∈ candidatePool pts tenant_id,
            cosine_similarity query_vector p.vector ≤ top.score

/-- **C2**: for a reachable store, a coherent (non-empty, dimension-matching)
query vector and a positive limit, `search_embeddings` scores every pooled
candidate by exact cosine similarity, sorts descending with ties in original
retrieval order (a stable sort), returns at most `limit` entries, and the top
result's similarity is the maximum cosine similarity over the pool. -/
theorem search_embeddings_ranking (pts : List Point) (tenant_id : String)
    (query_vector : List ℝ) (limit : Int) (hq : query_vector ≠ [])
    (hdim : ∀ p ∈ candidatePool pts tenant_id,
      p.vector.length = query_vector.length)
    (hlim : 0 < limit) : RankingSpec pts tenant_id query_vector limit := by
  have hbody := search_body_ok limit hq hdim
  rw [if_neg (not_le.mpr hlim)] at hbody
  have hse : search_embeddings (.ok pts) tenant_id query_vector limit =
      ((List.insertionSort simGE ((candidatePool pts tenant_id).map fun p =>
          ScoredPoint.mk (cosine_similarity query_vector p.vector) p)).take
            limit.toNat).map
        (fun sp => SearchResult.mk sp.score sp.point.payload) := by
    unfold search_embeddings
    rw [hbody]
  refine ⟨List.insertionSort simGE ((candidatePool pts tenant_id).map fun p =>
      ScoredPoint.mk (cosine_similarity query_vector p.vector) p),
    hse, List.perm_insertionSort simGE _, List.sorted_insertionSort simGE _,
    fun s => filter_score_insertionSort s _, ?_, ?_⟩
  · rw [hse, List.length_map, List.length_take]
    exact min_le_left _ _
  · intro top rest htr
    rw [hse] at htr
    cases hfull : List.insertionSort simGE
        ((candidatePool pts tenant_id).map fun p =>
          ScoredPoint.mk (cosine_similarity query_vector p.vector) p) with
    | nil =>
      rw [hfull] at htr
      simp at htr
    | cons x xs =>
      have htn : limit.toNat = (limit.toNat - 1) + 1 := by omega
      rw [hfull, htn, List.take_succ_cons, List.map_cons] at htr
      have htop : top = SearchResult.mk x.score x.point.payload :=
        (List.cons.inj htr.symm).1
      have hxmem : x ∈ List.insertionSort simGE
          ((candidatePool pts tenant_id).map fun p =>
            ScoredPoint.mk (cosine_similarity query_vector p.vector) p) := by
        rw [hfull]
        exact List.mem_cons_self x xs
      have hxin := (List.perm_insertionSort simGE _).mem_iff.mp hxmem
      obtain ⟨p, hp, hpx⟩ := List.mem_map.mp hxin
      constructor
      · refine ⟨p, hp, ?_⟩
        rw [htop, ← hpx]
      · intro q hq'
        have hqmem : ScoredPoint.mk (cosine_similarity query_vector q.vector) q
            ∈ List.insertionSort simGE
              ((candidatePool pts tenant_id).map fun p =>
                ScoredPoint.mk (cosine_similarity query_vector p.vector) p) :=
          (List.perm_insertionSort simGE _).mem_iff.mpr
            (List.mem_map.mpr ⟨q, hq', rfl⟩)
        rw [hfull] at hqmem
        have hsorted : List.Sorted simGE (x :: xs) := by
          rw [← hfull]
          exact List.sorted_insertionSort simGE _
        have := sorted_head_max hsorted _ hqmem
        rw [htop]
        exact this

/-- Witness for `search_embeddings_ranking` at a one-point store. -/
theorem search_embeddings_ranking_witness :
    ([(1 : ℝ)] ≠ ([] : List ℝ))
    ∧ (∀ p ∈ candidatePool [⟨"p1", [(1 : ℝ)], ⟨"A", "d", 0, "t"⟩⟩] "A",
        p.vector.length = [(1 : ℝ)].length)
    ∧ ((0 : Int) < 5)
    ∧ RankingSpec [⟨"p1", [(1 : ℝ)], ⟨"A", "d", 0, "t"⟩⟩] "A" [(1 : ℝ)] 5 := by
  have hdim : ∀ p ∈ candidatePool [⟨"p1", [(1 : ℝ)], ⟨"A", "d", 0, "t"⟩⟩] "A",
      p.vector.length = [(1 : ℝ)].length := by
    have hpool : candidatePool [⟨"p1", [(1 : ℝ)], ⟨"A", "d", 0, "t"⟩⟩] "A" =
        [⟨"p1", [(1 : ℝ)], ⟨"A", "d", 0, "t"⟩⟩] := rfl
    rw [hpool]
    intro p hp
    obtain rfl := List.mem_singleton.mp hp
    rfl
  exact ⟨by simp, hdim, by decide,
    search_embeddings_ranking _ _ _ _ (by simp) hdim (by decide)⟩

/-- **C7** (amended): only the *empty* query vector is rejected by the
in-body `"Invalid query vector"` validation, and that happens before any
store access (the body yields the validation error even on an unreachable
store); the exception is caught by the handler, so the caller sees `[]`, not
an error.  A wrong-dimensionality non-empty vector is *not* rejected up
front: retrieval proceeds to the store (an unreachable store's error, not the
validation error, is what the body then propagates), and a dimensionality
mismatch against a pooled vector surfaces only inside the similarity loop,
is caught, and yields `[]`. -/
theorem search_embeddings_validation (tenant_id : String) :
    (∀ store limit,
      search_body store tenant_id [] limit = .error "Invalid query vector")
    ∧ (∀ store limit, search_embeddings store tenant_id [] limit = [])
    ∧ (∀ e limit (qv : List ℝ), qv ≠ [] →
        search_body (.error e) tenant_id qv limit = .error e)
    ∧ (∀ pts limit (qv : List ℝ), qv ≠ [] →
        (candidatePool pts tenant_id).any
          (fun p => p.vector.length != qv.length) = true →
        search_embeddings (.ok pts) tenant_id qv limit = []) := by
  refine ⟨fun store limit => search_body_empty_qv store tenant_id limit,
    fun store limit => ?_, fun e limit qv hq => search_body_error_store hq,
    fun pts limit qv hq hany => ?_⟩
  · unfold search_embeddings
    rw [search_body_empty_qv]
  · unfold search_embeddings
    rw [search_body_ok_store hq, if_pos hany]

/-- **C7** counterexample to the claim as stated: the one-element query
vector `[1]` has the wrong dimensionality (1 ≠ 384), yet `search_embeddings`
neither fails nor rejects it — against a store holding a one-dimensional
point it happily returns a non-empty result list. -/
theorem search_embeddings_invalid_vector_counterexample :
    [(1 : ℝ)].length ≠ VECTOR_SIZE
    ∧ search_body (.ok [⟨"p1", [(1 : ℝ)], ⟨"A", "d", 0, "t"⟩⟩]) "A"
        [(1 : ℝ)] 5 =
      .ok [SearchResult.mk (cosine_similarity [(1 : ℝ)] [(1 : ℝ)])
        ⟨"A", "d", 0, "t"⟩]
    ∧ search_embeddings (.ok [⟨"p1", [(1 : ℝ)], ⟨"A", "d", 0, "t"⟩⟩]) "A"
        [(1 : ℝ)] 5 ≠ [] := by
  refine ⟨by decide, rfl, ?_⟩
  have he : search_embeddings (.ok [⟨"p1", [(1 : ℝ)], ⟨"A", "d", 0, "t"⟩⟩]) "A"
      [(1 : ℝ)] 5 =
      [SearchResult.mk (cosine_similarity [(1 : ℝ)] [(1 : ℝ)])
        ⟨"A", "d", 0, "t"⟩] := rfl
  rw [he]
  exact List.cons_ne_nil _ _

/-- **C10**: `search_embeddings` never surfaces an error: any failure of the
`try:` block — an unreachable store included — is caught and turned into the
empty list, a dimensionality mismatch inside the similarity loop included;
and a non-positive limit is silently replaced by the default limit 5 rather
than rejected. -/
theorem search_embeddings_never_raises (store : Except String (List Point))
    (tenant_id : String) (query_vector : List ℝ) (limit : Int) :
    (∀ e, search_body store tenant_id query_vector limit = .error e →
      search_embeddings store tenant_id query_vector limit = [])
    ∧ (∀ e, search_embeddings (.error e) tenant_id query_vector limit = [])
    ∧ (∀ pts, (candidatePool pts tenant_id).any
          (fun p => p.vector.length != query_vector.length) = true →
        query_vector ≠ [] →
        search_embeddings (.ok pts) tenant_id query_vector limit = [])
    ∧ (limit ≤ 0 → search_embeddings store tenant_id query_vector limit =
        search_embeddings store tenant_id query_vector 5) := by
  refine ⟨fun e he => ?_, fun e => ?_, fun pts hany hq => ?_, fun hle => ?_⟩
  · unfold search_embeddings
    rw [he]
  · by_cases hq : query_vector = []
    · rw [hq]
      unfold search_embeddings
      rw [search_body_empty_qv]
    · unfold search_embeddings
      rw [search_body_error_store hq]
  · unfold search_embeddings
    rw [search_body_ok_store hq, if_pos hany]
  · have hbody : search_body store tenant_id query_vector limit =
        search_body store tenant_id query_vector 5 := by
      unfold search_body
      rw [if_pos hle, if_neg (by norm_num : ¬ (5 : Int) ≤ 0)]
    unfold search_embeddings
    rw [hbody]

/-! ## Answer synthesis (`app/llm/gemini_client.py`) -/

/-- The generation backend resolved at import time: either no client (no API
key / import failure), or a client whose `generate_content` call either
returns text or raises. -/
inductive GenBackend where
  | unavailable : GenBackend
  | available : (String → Except String String) → GenBackend

/-- One element of `context_chunks`: `generate_answer` reads only the
`'text'` key of each dict the caller passes. -/
structure ContextChunk where
  text : String

/-- The `context` block of the prompt:
`"\n\n".join(f"[Document {i+1}]: {chunk['text']}" for i, chunk in enumerate(...))`. -/
def build_context (context_chunks : List ContextChunk) : String :=
  String.intercalate "\n\n" (context_chunks.enum.map fun ic =>
    "[Document " ++ toString (ic.1 + 1) ++ "]: " ++ ic.2.text)

/-- The prompt f-string of `generate_answer`. -/
def build_prompt (query : String) (context_chunks : List ContextChunk) :
    String :=
  "Based on the following document excerpts, provide a comprehensive and accurate answer to the user\x27s question.\n\nContext:\n"
    ++ build_context context_chunks
    ++ "\n\nQuestion: " ++ query
    ++ "\n\nInstructions:\n- Answer based solely on the provided context\n- If the context doesn\x27t contain enough information, say so clearly\n- Cite which document section supports your answer\n- Be concise but thorough\n\nAnswer:"

/-- The fallback tail of `generate_answer`: the top-ranked fragment verbatim
inside the fallback annotation, or the fixed no-relevant-information message
naming the query. -/
def fallback_answer (query : String) (context_chunks : List ContextChunk) :
    String :=
  match context_chunks with
  | best_match :: _ =>
    "Based on your uploaded documents, here\x27s what I found:\n\n"
      ++ best_match.text
      ++ "\n\n(Note: Using fallback response. Set GEMINI_API_KEY for AI-generated answers.)"
  | [] =>
    "I couldn\x27t find any relevant information about \x27" ++ query
      ++ "\x27 in your uploaded documents. Please make sure you\x27ve uploaded documents that contain information about this topic."

/-- `generate_answer` from `app/llm/gemini_client.py`: with a configured
client, build the prompt and return the generated text, falling through to
the fallback when generation raises; without a client, go straight to the
fallback. -/
def generate_answer (backend : GenBackend) (query : String)
    (context_chunks : List ContextChunk) : String :=
  match backend with
  | .available respond =>
    match respond (build_prompt query context_chunks) with
    | .ok t => t
    | .error _ => fallback_answer query context_chunks
  | .unavailable => fallback_answer query context_chunks

/-- **C8** (amended): querying a tenant with zero stored fragments succeeds
with the empty result list (the body returns `.ok []`, no error is raised);
and on an empty ranked-fragments list the synthesizer returns the fixed
no-relevant-information message naming the query *when the generation backend
is unavailable or the generation call fails* (with a configured, succeeding
backend the source does invoke it even on empty fragments — see the
counterexample; the query orchestrator avoids that path by never calling the
synthesizer on empty results). -/
theorem empty_partition_and_no_info (pts : List Point) (tenant_id : String)
    (query_vector : List ℝ) (limit : Int) (q : String)
    (hq : query_vector ≠ [])
    (hempty : ∀ p ∈ pts, p.payload.tenant_id ≠ tenant_id) :
    search_body (.ok pts) tenant_id query_vector limit = .ok []
    ∧ search_embeddings (.ok pts) tenant_id query_vector limit = []
    ∧ generate_answer .unavailable q [] =
        "I couldn\x27t find any relevant information about \x27" ++ q
          ++ "\x27 in your uploaded documents. Please make sure you\x27ve uploaded documents that contain information about this topic."
    ∧ (∀ f e, f (build_prompt q []) = .error e →
        generate_answer (.available f) q [] =
          "I couldn\x27t find any relevant information about \x27" ++ q
            ++ "\x27 in your uploaded documents. Please make sure you\x27ve uploaded documents that contain information about this topic.") := by
  have hfilter : pts.filter (fun p => p.payload.tenant_id == tenant_id) = [] := by
    rw [List.filter_eq_nil_iff]
    intro p hp
    simpa using hempty p hp
  have hpool : candidatePool pts tenant_id = [] := by
    unfold candidatePool
    rw [hfilter]
    rfl
  have hbody : search_body (.ok pts) tenant_id query_vector limit = .ok [] := by
    rw [search_body_ok limit hq (fun p hp => absurd (hpool ▸ hp) (List.not_mem_nil p))]
    rw [hpool]
    simp [List.insertionSort]
  refine ⟨hbody, ?_, rfl, fun f e h => ?_⟩
  · unfold search_embeddings
    rw [hbody]
  · simp only [generate_answer]
    rw [h]
    rfl

/-- **C8** counterexample to the claim as stated: with a configured backend
whose generation call succeeds, `generate_answer` on an *empty*
ranked-fragments list invokes the backend and returns its output, not the
fixed no-relevant-information message. -/
theorem generate_answer_empty_invokes_backend_counterexample :
    generate_answer (.available fun _ => .ok "OK") "q" [] = "OK"
    ∧ "OK" ≠
      "I couldn\x27t find any relevant information about \x27q\x27 in your uploaded documents. Please make sure you\x27ve uploaded documents that contain information about this topic." :=
  ⟨rfl, by decide⟩

/-- Witness for `empty_partition_and_no_info`: tenant "A" queries a store
holding only a tenant-"B" point. -/
theorem empty_partition_and_no_info_witness :
    ([(1 : ℝ)] ≠ ([] : List ℝ))
    ∧ (∀ p ∈ [(⟨"p1", [(1 : ℝ)], ⟨"B", "d", 0, "t"⟩⟩ : Point)],
        p.payload.tenant_id ≠ "A")
    ∧ (search_body (.ok [⟨"p1", [(1 : ℝ)], ⟨"B", "d", 0, "t"⟩⟩]) "A"
        [(1 : ℝ)] 5 = .ok []
      ∧ search_embeddings (.ok [⟨"p1", [(1 : ℝ)], ⟨"B", "d", 0, "t"⟩⟩]) "A"
          [(1 : ℝ)] 5 = []
      ∧ generate_answer .unavailable "q" [] =
          "I couldn\x27t find any relevant information about \x27" ++ "q"
            ++ "\x27 in your uploaded documents. Please make sure you\x27ve uploaded documents that contain information about this topic."
      ∧ (∀ f e, f (build_prompt "q" []) = .error e →
          generate_answer (.available f) "q" [] =
            "I couldn\x27t find any relevant information about \x27" ++ "q"
              ++ "\x27 in your uploaded documents. Please make sure you\x27ve uploaded documents that contain information about this topic.")) := by
  have hempty : ∀ p ∈ [(⟨"p1", [(1 : ℝ)], ⟨"B", "d", 0, "t"⟩⟩ : Point)],
      p.payload.tenant_id ≠ "A" := by
    intro p hp
    obtain rfl := List.mem_singleton.mp hp
    decide
  exact ⟨by simp, hempty,
    empty_partition_and_no_info _ _ _ _ _ (by simp) hempty⟩

/-- **C9**: with a non-empty ranked-fragments list, whenever the backend is
unavailable or the generation call fails, `generate_answer` returns exactly
the fallback template: the top-ranked fragment's text verbatim, framed by the
fallback annotation.  The failure is absorbed — the synthesizer's return type
is a plain string, so no error ever reaches the caller. -/
theorem generate_answer_fallback_top_fragment (q : String)
    (best_match : ContextChunk) (rest : List ContextChunk) :
    (generate_answer .unavailable q (best_match :: rest) =
      "Based on your uploaded documents, here\x27s what I found:\n\n"
        ++ best_match.text
        ++ "\n\n(Note: Using fallback response. Set GEMINI_API_KEY for AI-generated answers.)")
    ∧ (∀ f e, f (build_prompt q (best_match :: rest)) = .error e →
        generate_answer (.available f) q (best_match :: rest) =
          "Based on your uploaded documents, here\x27s what I found:\n\n"
            ++ best_match.text
            ++ "\n\n(Note: Using fallback response. Set GEMINI_API_KEY for AI-generated answers.)")
    ∧ (∃ pre post, fallback_answer q (best_match :: rest) =
        pre ++ best_match.text ++ post) := by
  refine ⟨rfl, fun f e h => ?_,
    ⟨"Based on your uploaded documents, here\x27s what I found:\n\n",
      "\n\n(Note: Using fallback response. Set GEMINI_API_KEY for AI-generated answers.)",
      rfl⟩⟩
  simp only [generate_answer]
  rw [h]
  rfl

end DocRAG
